import Mathlib

/-!
A shallow embedding of the stdio JSON-RPC transport and method-dispatch
engine of server.js (classes JsonRpcStdio and MCPServer, and the handler
registry assembled by createServer).  JavaScript strings are modelled as
lists of characters, JSON values as the inductive JVal, promise
rejection / thrown values as the error component of Except, and the side
effects of a dispatch (stdout writes, console.error logging, handler
invocation, pending-resolver calls) as explicit event lists.  JSON.parse
is a platform builtin, not repository code, so the framing layer is
parametrised by an arbitrary parse function returning the fields the
server reads from a parsed object.
-/

namespace MysqlMcp

/-- Primitive JSON values: the shapes that can serve as correlation ids
or method fields.  A JS Map key that is an object or array compares by
reference and a freshly parsed reference can never equal a stored one,
so only primitives can correlate; numbers are modelled as integers. -/
inductive JPrim where
  | jnull
  | jbool (b : Bool)
  | jnum (n : Int)
  | jstr (s : String)
deriving DecidableEq

/-- JSON values (numbers restricted to integers), used for params
payloads, handler results and thrown error details. -/
inductive JVal where
  | jnull
  | jbool (b : Bool)
  | jnum (n : Int)
  | jstr (s : String)
  | jarr (elems : List JVal)
  | jobj (fields : List (String × JVal))

/-- JavaScript truthiness of a primitive, as tested by
`if (msg.method)` and `else if (msg.id)` in JsonRpcStdio._handleMessage. -/
def truthyPrim : JPrim → Bool
  | .jnull => false
  | .jbool b => b
  | .jnum n => n != 0
  | .jstr s => s != ""

/-- Truthiness of a possibly absent field (undefined is falsy). -/
def optTruthy : Option JPrim → Bool
  | none => false
  | some v => truthyPrim v

/-- JavaScript truthiness of a full JSON value (`params || {}`). -/
def truthyVal : JVal → Bool
  | .jnull => false
  | .jbool b => b
  | .jnum n => n != 0
  | .jstr s => s != ""
  | .jarr _ => true
  | .jobj _ => true

/-- JavaScript string coercion of a possibly absent primitive, as
performed by `'Method not found: ' + method`. -/
def primToString : Option JPrim → String
  | none => "undefined"
  | some .jnull => "null"
  | some (.jbool true) => "true"
  | some (.jbool false) => "false"
  | some (.jnum n) => toString n
  | some (.jstr s) => s

/-- The fields of a parsed inbound message that the server reads:
msg.id, msg.method and msg.params.  A parsed value of any other shape
(say a bare number) has all three undefined. -/
structure Msg where
  id : Option JPrim := none
  method : Option JPrim := none
  params : Option JVal := none

/-- A registered handler: an async function of the params payload that
resolves with a result or rejects/throws with an arbitrary value. -/
abbrev Handler := JVal → Except JVal JVal

/-- The error descriptor of an error reply: `{ code, message }`. -/
structure ErrObj where
  code : Int
  message : String

/-- An outbound message as built by MCPServer._onRequest and serialized
by JsonRpcStdio.send.  A `none` field is `undefined` in the JS object
and is dropped by JSON.stringify, so `none` means the serialized line
carries no such field. -/
structure OutMsg where
  jsonrpc : String
  id : Option JPrim := none
  result : Option JVal := none
  error : Option ErrObj := none

/-- Observable effects of handling one inbound message, in program
order: a stdout write of a serialized message (transport.send), a
console.error log of a thrown value, the invocation of a registered
handler, or the call of a pending resolver with a reply. -/
inductive Event where
  | invoked (method : String)
  | loggedErr (tag : String) (detail : JVal)
  | sent (m : OutMsg)
  | resolved (callback : Nat) (m : Msg)

/-- The argument a handler receives: `params || {}`. -/
def paramsOrEmpty : Option JVal → JVal
  | none => .jobj []
  | some v => if truthyVal v then v else .jobj []

/-- Lookup in the handler Map (string keys, case-sensitive, first and
only occurrence wins). -/
def findHandler : List (String × Handler) → String → Option Handler
  | [], _ => none
  | (k, f) :: rest, s => if k = s then some f else findHandler rest s

/-- `this.handlers.has(method)` / `this.handlers.get(method)`: the Map
is keyed by strings, so a non-string method never matches. -/
def lookupHandler (handlers : List (String × Handler)) (m : JPrim) : Option Handler :=
  match m with
  | .jstr s => findHandler handlers s
  | _ => none

/-- MCPServer.setHandler, i.e. Map.set: replace in place if the key is
present (later registration wins), else append in insertion order. -/
def setHandler : List (String × Handler) → String → Handler → List (String × Handler)
  | [], m, f => [(m, f)]
  | (k, g) :: rest, m, f =>
      if k = m then (m, f) :: rest else (k, g) :: setHandler rest m f

/-- MCPServer._onRequest: destructure id, method, params; if no handler
is registered for method, send a method-not-found error reply; else
invoke the handler on `params || {}` and send either a result reply or,
on a thrown error, a console.error log followed by a generic
internal-error reply.  The handler registry is returned unchanged: the
source never mutates `this.handlers` here. -/
def mcpOnRequest (handlers : List (String × Handler)) (msg : Msg) :
    List Event × List (String × Handler) :=
  match msg.method.bind (fun m => lookupHandler handlers m) with
  | none =>
      ([.sent { jsonrpc := "2.0", id := msg.id,
                error := some { code := -32601,
                                message := "Method not found: " ++ primToString msg.method } }],
       handlers)
  | some h =>
      match h (paramsOrEmpty msg.params) with
      | .ok r =>
          ([.invoked (primToString msg.method),
            .sent { jsonrpc := "2.0", id := msg.id, result := some r }],
           handlers)
      | .error e =>
          ([.invoked (primToString msg.method),
            .loggedErr "[ERROR] handler threw" e,
            .sent { jsonrpc := "2.0", id := msg.id,
                    error := some { code := -32603, message := "Internal error" } }],
           handlers)

/-- `this.pending.get(msg.id)`: first (and, for a Map, only) entry for
the id.  Resolvers are identified by a number so that their invocation
is observable as an event. -/
def pfind : List (JPrim × Nat) → JPrim → Option Nat
  | [], _ => none
  | (k, r) :: rest, i => if k = i then some r else pfind rest i

/-- `this.pending.delete(msg.id)`: remove the first entry for the id. -/
def pdelete : List (JPrim × Nat) → JPrim → List (JPrim × Nat)
  | [], _ => []
  | (k, r) :: rest, i => if k = i then rest else (k, r) :: pdelete rest i

/-- JsonRpcStdio._handleMessage: a truthy method dispatches to the
MCPServer (pending registry untouched); otherwise a truthy id is looked
up among the pending resolvers — if found the resolver is called with
the message and the entry deleted, if not the message is dropped. -/
def handleMessage (handlers : List (String × Handler)) (pending : List (JPrim × Nat))
    (msg : Msg) : List Event × List (JPrim × Nat) :=
  if optTruthy msg.method then ((mcpOnRequest handlers msg).1, pending)
  else if optTruthy msg.id then
    match msg.id with
    | some i =>
        match pfind pending i with
        | some r => ([.resolved r msg], pdelete pending i)
        | none => ([], pending)
    | none => ([], pending)
  else ([], pending)

/-- The stdout writes among a list of effects, in order. -/
def sentMsgs (evs : List Event) : List OutMsg :=
  evs.filterMap (fun e => match e with | .sent m => some m | _ => none)

/-- Field lookup in an object field list (first occurrence). -/
def lookupStr : List (String × JVal) → String → Option JVal
  | [], _ => none
  | (k, v) :: rest, s => if k = s then some v else lookupStr rest s

/-- Field access on a JSON value: an object yields its field, any other
shape yields undefined. -/
def jget : JVal → String → Option JVal
  | .jobj fs, s => lookupStr fs s
  | _, _ => none

/-- The capability set configured in createServer. -/
def serverCapabilities : JVal :=
  .jobj [("resources", .jobj [("list", .jbool true), ("read", .jbool true),
                              ("listChanged", .jbool true), ("templates", .jbool true)]),
         ("tools", .jobj [("list", .jbool true), ("call", .jbool true)])]

/-- The server identity configured in createServer. -/
def serverName : String := "mysql-mcp-server"

/-- The server version configured in createServer. -/
def serverVersion : String := "1.0.1"

/-- The value the initialize handler resolves with. -/
def initializeResult : JVal :=
  .jobj [("protocolVersion", .jstr "2024-11-05"),
         ("serverInfo", .jobj [("name", .jstr serverName),
                               ("version", .jstr serverVersion)]),
         ("capabilities", serverCapabilities),
         ("resourceTemplates", .jarr [])]

/-- The initialize handler: ignores its params and resolves with the
protocol version, server identity, capability set and the (empty)
resourceTemplates list. -/
def initializeHandler : Handler := fun _ => .ok initializeResult

/-- The initialized handler: resolves with an empty object. -/
def initializedHandler : Handler := fun _ => .ok (.jobj [])

/-- The handler registry assembled by createServer via the eight
setHandler calls, in source order.  The six database-backed business
handlers are external collaborators (they run pool queries) and are
taken as parameters. -/
def createServerHandlers (rList rRead tList tGet toolL toolC : Handler) :
    List (String × Handler) :=
  setHandler (setHandler (setHandler (setHandler (setHandler (setHandler (setHandler
    (setHandler [] "initialize" initializeHandler)
    "initialized" initializedHandler)
    "resources/list" rList)
    "resources/read" rRead)
    "resources/templates/list" tList)
    "resources/templates/get" tGet)
    "tools/list" toolL)
    "tools/call" toolC

/-- The ASCII whitespace removed by String.prototype.trim (the Unicode
space classes are irrelevant to every claim and omitted). -/
def wsChar (c : Char) : Bool :=
  c == ' ' || c == '\t' || c == '\n' || c == '\r' || c == '\x0b' || c == '\x0c'

/-- `line.trim()`: strip whitespace from both ends. -/
def jsTrim (l : List Char) : List Char :=
  ((l.dropWhile wsChar).reverse.dropWhile wsChar).reverse

/-- What the framing loop produces per extracted line: a console.error
log for a line JSON.parse rejects, or a parsed message handed to
_handleMessage. -/
inductive LineEvent where
  | badLine (line : List Char)
  | msg (m : Msg)

/-- The body of one iteration of the _onData loop, after the line has
been cut out of the buffer: trim; skip if empty; otherwise parse, and
either log the parse failure (the line is discarded, the loop
continues) or emit the message. -/
def processLine (parse : List Char → Option Msg) (line : List Char) : List LineEvent :=
  let t := jsTrim line
  if t = [] then []
  else
    match parse t with
    | none => [.badLine t]
    | some m => [.msg m]

/-- JsonRpcStdio._onData after appending the chunk: while the buffer
contains a newline, cut the prefix before the first newline out of the
buffer (the newline itself is consumed) and process it.  Returns the
line events in order and the final buffer. -/
def drain (parse : List Char → Option Msg) (buf : List Char) :
    List LineEvent × List Char :=
  if h : '\n' ∈ buf then
    let line := buf.takeWhile (fun c => c != '\n')
    let rest := (buf.dropWhile (fun c => c != '\n')).tail
    let r := drain parse rest
    (processLine parse line ++ r.1, r.2)
  else ([], buf)
  termination_by buf.length
  decreasing_by
    induction buf with
    | nil => cases h
    | cons c cs ih =>
        by_cases hc : c = '\n'
        · subst hc
          simp [List.dropWhile]
        · have h' : '\n' ∈ cs := by
            cases h with
            | head => exact absurd rfl hc
            | tail _ hm => exact hm
          have hcb : (c != '\n') = true := by simp [hc]
          simp only [List.dropWhile, hcb, List.length_cons]
          exact Nat.lt_succ_of_lt (ih h')

/-- One call of ingest: append the chunk to the buffer, then drain. -/
def ingestStep (parse : List Char → Option Msg)
    (acc : List LineEvent × List Char) (chunk : List Char) :
    List LineEvent × List Char :=
  let r := drain parse (acc.2 ++ chunk)
  (acc.1 ++ r.1, r.2)

/-- Feeding a list of chunks through ingest one at a time, starting
from a fresh transport (empty buffer), accumulating the line events. -/
def ingestChunks (parse : List Char → Option Msg) (chunks : List (List Char)) :
    List LineEvent × List Char :=
  chunks.foldl (ingestStep parse) ([], [])

/-- The suffix of a character sequence that follows its last newline
(the whole sequence when it has none). -/
def afterLastNl (s : List Char) : List Char :=
  (s.reverse.takeWhile (fun c => c != '\n')).reverse

/-- A parse function that rejects every line, used to instantiate the
framing theorems on concrete inputs. -/
def noParse : List Char → Option Msg := fun _ => none

/-! ## List facts about the first and last newline -/

theorem mem_takeWhile_sat {α : Type _} (p : α → Bool) :
    ∀ (l : List α) (x : α), x ∈ l.takeWhile p → p x = true := by
  intro l
  induction l with
  | nil => intro x hx; cases hx
  | cons a as ih =>
      intro x hx
      by_cases ha : p a = true
      · rw [List.takeWhile_cons, if_pos ha] at hx
        cases hx with
        | head => exact ha
        | tail _ hm => exact ih x hm
      · rw [List.takeWhile_cons, if_neg ha] at hx
        cases hx

theorem takeWhile_eq_self_of_all {α : Type _} (p : α → Bool) :
    ∀ (l : List α), (∀ x ∈ l, p x = true) → l.takeWhile p = l := by
  intro l
  induction l with
  | nil => intro _; rfl
  | cons a as ih =>
      intro h
      rw [List.takeWhile_cons, if_pos (h a (List.mem_cons_self a as))]
      rw [ih (fun x hx => h x (List.mem_cons_of_mem a hx))]

theorem dropWhile_eq_nil_of_all {α : Type _} (p : α → Bool) :
    ∀ (l : List α), (∀ x ∈ l, p x = true) → l.dropWhile p = [] := by
  intro l
  induction l with
  | nil => intro _; rfl
  | cons a as ih =>
      intro h
      rw [List.dropWhile_cons, if_pos (h a (List.mem_cons_self a as))]
      exact ih (fun x hx => h x (List.mem_cons_of_mem a hx))

theorem takeWhile_append_stop {α : Type _} (p : α → Bool) {c : α} (hc : p c = false)
    (a b : List α) : ((a ++ c :: b).takeWhile p) = a.takeWhile p := by
  induction a with
  | nil => simp [List.takeWhile_cons, hc]
  | cons x xs ih =>
      rw [List.cons_append, List.takeWhile_cons, List.takeWhile_cons]
      cases hx : p x with
      | true => simp [ih]
      | false => simp

theorem dropWhile_append_stop {α : Type _} (p : α → Bool) {c : α} (hc : p c = false)
    (a b : List α) : ((a ++ c :: b).dropWhile p) = a.dropWhile p ++ c :: b := by
  induction a with
  | nil => simp [List.dropWhile_cons, hc]
  | cons x xs ih =>
      rw [List.cons_append, List.dropWhile_cons, List.dropWhile_cons]
      cases hx : p x with
      | true => simp [ih]
      | false => simp

/-! ## The two shapes of one drain iteration -/

theorem drain_no_nl (parse : List Char → Option Msg) (buf : List Char)
    (h : '\n' ∉ buf) : drain parse buf = ([], buf) := by
  rw [drain.eq_def, dif_neg h]

theorem drain_step (parse : List Char → Option Msg) {line : List Char} (rest : List Char)
    (hnl : '\n' ∉ line) :
    drain parse (line ++ '\n' :: rest) =
      (processLine parse line ++ (drain parse rest).1, (drain parse rest).2) := by
  have hmem : '\n' ∈ line ++ '\n' :: rest :=
    List.mem_append_right _ (List.mem_cons_self _ _)
  have hall : ∀ c ∈ line, (c != '\n') = true := by
    intro c hc
    simp only [bne_iff_ne, ne_eq]
    intro hcn
    exact hnl (hcn ▸ hc)
  have ht : (line ++ '\n' :: rest).takeWhile (fun c => c != '\n') = line := by
    rw [takeWhile_append_stop (fun c => c != '\n') (by simp) line rest]
    exact takeWhile_eq_self_of_all _ _ hall
  have hd : (line ++ '\n' :: rest).dropWhile (fun c => c != '\n') = '\n' :: rest := by
    rw [dropWhile_append_stop (fun c => c != '\n') (by simp) line rest]
    rw [dropWhile_eq_nil_of_all _ _ hall]
    rfl
  rw [drain.eq_def, dif_pos hmem, ht, hd]
  simp

theorem split_first_nl {s : List Char} (h : '\n' ∈ s) :
    ∃ line rest, '\n' ∉ line ∧ s = line ++ '\n' :: rest := by
  induction s with
  | nil => cases h
  | cons c cs ih =>
      by_cases hc : c = '\n'
      · subst hc
        exact ⟨[], cs, by simp, rfl⟩
      · have h' : '\n' ∈ cs := by
          cases h with
          | head => exact absurd rfl hc
          | tail _ hm => exact hm
        obtain ⟨line, rest, h1, h2⟩ := ih h'
        refine ⟨c :: line, rest, ?_, by simp [h2]⟩
        intro hmem
        cases hmem with
        | head => exact hc rfl
        | tail _ hm => exact h1 hm

/-! ## Drain over concatenations, and the residual buffer -/

theorem drain_append_bounded (parse : List Char → Option Msg) :
    ∀ (n : Nat) (s t : List Char), s.length ≤ n →
      drain parse (s ++ t) =
        ((drain parse s).1 ++ (drain parse ((drain parse s).2 ++ t)).1,
         (drain parse ((drain parse s).2 ++ t)).2) := by
  intro n
  induction n with
  | zero =>
      intro s t hs
      have hnil : s = [] := List.length_eq_zero.mp (Nat.le_zero.mp hs)
      subst hnil
      have h0 : drain parse [] = ([], []) := drain_no_nl parse [] (by simp)
      simp [h0]
  | succ n ih =>
      intro s t hs
      by_cases hm : '\n' ∈ s
      · obtain ⟨line, s', hnl, rfl⟩ := split_first_nl hm
        have hlen : s'.length ≤ n := by
          simp only [List.length_append, List.length_cons] at hs
          omega
        have hassoc : (line ++ '\n' :: s') ++ t = line ++ '\n' :: (s' ++ t) := by simp
        rw [hassoc, drain_step parse (s' ++ t) hnl, drain_step parse s' hnl, ih s' t hlen]
        simp [List.append_assoc]
      · rw [drain_no_nl parse s hm]
        simp

theorem drain_append (parse : List Char → Option Msg) (s t : List Char) :
    drain parse (s ++ t) =
      ((drain parse s).1 ++ (drain parse ((drain parse s).2 ++ t)).1,
       (drain parse ((drain parse s).2 ++ t)).2) :=
  drain_append_bounded parse s.length s t (Nat.le_refl _)

theorem afterLastNl_of_no_nl {s : List Char} (h : '\n' ∉ s) : afterLastNl s = s := by
  unfold afterLastNl
  rw [takeWhile_eq_self_of_all _ _ (by
    intro c hc
    rw [List.mem_reverse] at hc
    simp only [bne_iff_ne, ne_eq]
    intro hcn
    exact h (hcn ▸ hc))]
  exact s.reverse_reverse

theorem afterLastNl_append (line rest : List Char) :
    afterLastNl (line ++ '\n' :: rest) = afterLastNl rest := by
  unfold afterLastNl
  rw [List.reverse_append, List.reverse_cons, List.append_assoc, List.singleton_append]
  rw [takeWhile_append_stop (fun c => c != '\n') (by simp) rest.reverse line.reverse]

theorem afterLastNl_no_nl (s : List Char) : '\n' ∉ afterLastNl s := by
  intro hmem
  unfold afterLastNl at hmem
  rw [List.mem_reverse] at hmem
  have := mem_takeWhile_sat _ _ _ hmem
  simp at this

theorem drain_snd_bounded (parse : List Char → Option Msg) :
    ∀ (n : Nat) (s : List Char), s.length ≤ n → (drain parse s).2 = afterLastNl s := by
  intro n
  induction n with
  | zero =>
      intro s hs
      have hnil : s = [] := List.length_eq_zero.mp (Nat.le_zero.mp hs)
      subst hnil
      rw [drain_no_nl parse [] (by simp)]
      rfl
  | succ n ih =>
      intro s hs
      by_cases hm : '\n' ∈ s
      · obtain ⟨line, s', hnl, rfl⟩ := split_first_nl hm
        have hlen : s'.length ≤ n := by
          simp only [List.length_append, List.length_cons] at hs
          omega
        rw [drain_step parse s' hnl, afterLastNl_append]
        exact ih s' hlen
      · rw [drain_no_nl parse s hm, afterLastNl_of_no_nl hm]

theorem drain_snd (parse : List Char → Option Msg) (s : List Char) :
    (drain parse s).2 = afterLastNl s :=
  drain_snd_bounded parse s.length s (Nat.le_refl _)

theorem drain_res_no_nl (parse : List Char → Option Msg) (s : List Char) :
    '\n' ∉ (drain parse s).2 := by
  rw [drain_snd parse s]
  exact afterLastNl_no_nl s

/-! ## Folding ingest over a chunk list -/

theorem ingest_fold (parse : List Char → Option Msg) :
    ∀ (chunks : List (List Char)) (evs0 : List LineEvent) (buf : List Char),
      '\n' ∉ buf →
      chunks.foldl (ingestStep parse) (evs0, buf) =
        (evs0 ++ (drain parse (buf ++ chunks.flatten)).1,
         (drain parse (buf ++ chunks.flatten)).2) := by
  intro chunks
  induction chunks with
  | nil =>
      intro evs0 buf hb
      have h0 : drain parse buf = ([], buf) := drain_no_nl parse buf hb
      simp [h0]
  | cons c cs ih =>
      intro evs0 buf hb
      have hstep : ingestStep parse (evs0, buf) c =
          (evs0 ++ (drain parse (buf ++ c)).1, (drain parse (buf ++ c)).2) := rfl
      rw [List.foldl_cons, hstep, ih _ _ (drain_res_no_nl parse (buf ++ c))]
      have hflat : buf ++ (c :: cs).flatten = (buf ++ c) ++ cs.flatten := by
        rw [List.flatten_cons, List.append_assoc]
      rw [hflat, drain_append parse (buf ++ c) cs.flatten]
      simp [List.append_assoc]

/-! ## Pending-registry facts -/

theorem pfind_eq_none_of_not_mem (pending : List (JPrim × Nat)) (i : JPrim)
    (h : i ∉ pending.map Prod.fst) : pfind pending i = none := by
  induction pending with
  | nil => rfl
  | cons p rest ih =>
      obtain ⟨k, r⟩ := p
      simp only [List.map_cons, List.mem_cons] at h
      push_neg at h
      simp only [pfind]
      rw [if_neg (fun he => h.1 he.symm)]
      exact ih h.2

theorem pfind_pdelete_of_nodup (pending : List (JPrim × Nat)) (i : JPrim)
    (h : (pending.map Prod.fst).Nodup) : pfind (pdelete pending i) i = none := by
  induction pending with
  | nil => rfl
  | cons p rest ih =>
      obtain ⟨k, r⟩ := p
      simp only [List.map_cons, List.nodup_cons] at h
      by_cases hk : k = i
      · subst hk
        simp only [pdelete, if_pos rfl]
        exact pfind_eq_none_of_not_mem rest k h.1
      · simp only [pdelete, if_neg hk, pfind]
        exact ih h.2

/-! ## The claims -/

/-- C1: dispatching a request whose method has no registered handler
sends exactly one reply — the method-not-found error (code -32601)
carrying the request's own id — with no handler invocation and no
log, and hands the handler registry back unchanged. -/
theorem c1_unknown_method_reply (handlers : List (String × Handler)) (msg : Msg)
    (m : JPrim) (hm : msg.method = some m) (hl : lookupHandler handlers m = none) :
    mcpOnRequest handlers msg =
      ([.sent { jsonrpc := "2.0", id := msg.id,
                error := some { code := -32601,
                                message := "Method not found: " ++ primToString (some m) } }],
       handlers) := by
  simp [mcpOnRequest, hm, hl]

/-- C1 witness: the spec's end-to-end scenario — id 2, method "nope",
empty registry — gets exactly the -32601 reply with id 2. -/
theorem c1_witness :
    mcpOnRequest [] { id := some (.jnum 2), method := some (.jstr "nope") } =
      ([.sent { jsonrpc := "2.0", id := some (.jnum 2),
                error := some { code := -32601,
                                message := "Method not found: nope" } }],
       []) :=
  c1_unknown_method_reply [] _ (.jstr "nope") rfl rfl

/-- C2: a registered handler that raises yields exactly one reply: the
internal-error reply (code -32603, constant message) with the request's
id, preceded by the handler invocation and a local log that carries the
thrown detail.  The reply list is the same term for every thrown
detail — the second conjunct: any handler failing with any other detail
produces the identical sent messages — so the detail never appears in
the serialized reply. -/
theorem c2_handler_failure_reply (handlers : List (String × Handler)) (msg : Msg)
    (m : JPrim) (h : Handler) (e : JVal) (i : JPrim)
    (hm : msg.method = some m) (hl : lookupHandler handlers m = some h)
    (hid : msg.id = some i)
    (he : h (paramsOrEmpty msg.params) = .error e) :
    mcpOnRequest handlers msg =
      ([.invoked (primToString (some m)),
        .loggedErr "[ERROR] handler threw" e,
        .sent { jsonrpc := "2.0", id := some i,
                error := some { code := -32603, message := "Internal error" } }],
       handlers) ∧
    ∀ (handlers' : List (String × Handler)) (h' : Handler) (e' : JVal),
      lookupHandler handlers' m = some h' →
      h' (paramsOrEmpty msg.params) = .error e' →
      sentMsgs (mcpOnRequest handlers' msg).1 = sentMsgs (mcpOnRequest handlers msg).1 := by
  constructor
  · simp [mcpOnRequest, hm, hl, he, hid]
  · intro handlers' h' e' hl' he'
    simp [mcpOnRequest, hm, hl, he, hl', he', hid, sentMsgs]

/-- C2 witness: method "f" throwing the string "boom" on request id 7
produces the invocation, the log of "boom", and the fixed -32603 reply. -/
theorem c2_witness :
    mcpOnRequest [("f", fun _ => Except.error (JVal.jstr "boom"))]
        { id := some (.jnum 7), method := some (.jstr "f") } =
      ([.invoked "f",
        .loggedErr "[ERROR] handler threw" (.jstr "boom"),
        .sent { jsonrpc := "2.0", id := some (.jnum 7),
                error := some { code := -32603, message := "Internal error" } }],
       [("f", fun _ => Except.error (JVal.jstr "boom"))]) ∧
    ∀ (handlers' : List (String × Handler)) (h' : Handler) (e' : JVal),
      lookupHandler handlers' (.jstr "f") = some h' →
      h' (paramsOrEmpty none) = .error e' →
      sentMsgs (mcpOnRequest handlers' { id := some (.jnum 7), method := some (.jstr "f") }).1 =
        sentMsgs (mcpOnRequest [("f", fun _ => Except.error (JVal.jstr "boom"))]
          { id := some (.jnum 7), method := some (.jstr "f") }).1 :=
  c2_handler_failure_reply _ _ (.jstr "f") _ (.jstr "boom") (.jnum 7) rfl rfl rfl rfl

/-- C3 counterexample: for the concrete id-less message with method "x"
and a registered succeeding handler, _onRequest does hand a message to
transport.send (its serialized form merely lacks the id field, since
JSON.stringify drops the undefined id), so the claim that no reply
message at all is sent is false on the code. -/
theorem c3_counterexample :
    sentMsgs (mcpOnRequest [("x", fun _ => Except.ok JVal.jnull)]
      { method := some (.jstr "x") }).1 ≠ [] := by
  intro hc
  simp [mcpOnRequest, sentMsgs, lookupHandler, findHandler, paramsOrEmpty] at hc

/-- C3 (amended): for a message with a method, a registered handler and
no id, _onRequest invokes the handler and sends exactly one reply whose
id field is absent (the serialized line carries no id); a thrown
failure is additionally logged, and the one reply then sent is exactly
the id-less internal-error reply (code -32603, constant message). -/
theorem c3_idless_request_replies (handlers : List (String × Handler)) (msg : Msg)
    (m : JPrim) (h : Handler)
    (hm : msg.method = some m) (hl : lookupHandler handlers m = some h)
    (hid : msg.id = none) :
    Event.invoked (primToString (some m)) ∈ (mcpOnRequest handlers msg).1 ∧
    (∃ out, sentMsgs (mcpOnRequest handlers msg).1 = [out] ∧ out.id = none) ∧
    (∀ e, h (paramsOrEmpty msg.params) = .error e →
        Event.loggedErr "[ERROR] handler threw" e ∈ (mcpOnRequest handlers msg).1 ∧
        sentMsgs (mcpOnRequest handlers msg).1 =
          [{ jsonrpc := "2.0", id := none,
             error := some { code := -32603, message := "Internal error" } }]) := by
  cases hr : h (paramsOrEmpty msg.params) with
  | ok r =>
      refine ⟨?_, ⟨{ jsonrpc := "2.0", id := none, result := some r }, ?_, rfl⟩, ?_⟩
      · simp [mcpOnRequest, hm, hl, hr]
      · simp [mcpOnRequest, hm, hl, hr, sentMsgs, hid]
      · intro e he
        exact Except.noConfusion he
  | error e0 =>
      refine ⟨?_,
        ⟨{ jsonrpc := "2.0", id := none,
           error := some { code := -32603, message := "Internal error" } }, ?_, rfl⟩, ?_⟩
      · simp [mcpOnRequest, hm, hl, hr]
      · simp [mcpOnRequest, hm, hl, hr, sentMsgs, hid]
      · intro e he
        injection he with he'
        subst he'
        refine ⟨?_, ?_⟩
        · simp [mcpOnRequest, hm, hl, hr]
        · simp [mcpOnRequest, hm, hl, hr, sentMsgs, hid]

/-- C3 witness: the amended claim at the concrete throwing handler "x"
with no id, where the failure clause is live: the invocation, the log
of "boom" and the single id-less internal-error reply. -/
theorem c3_witness :
    Event.invoked (primToString (some (.jstr "x"))) ∈
      (mcpOnRequest [("x", fun _ => Except.error (JVal.jstr "boom"))]
        { method := some (.jstr "x") }).1 ∧
    (∃ out, sentMsgs (mcpOnRequest [("x", fun _ => Except.error (JVal.jstr "boom"))]
        { method := some (.jstr "x") }).1 = [out] ∧ out.id = none) ∧
    (∀ e, (fun _ => Except.error (JVal.jstr "boom") : Handler)
        (paramsOrEmpty (Msg.params { method := some (.jstr "x") })) = .error e →
      Event.loggedErr "[ERROR] handler threw" e ∈
        (mcpOnRequest [("x", fun _ => Except.error (JVal.jstr "boom"))]
          { method := some (.jstr "x") }).1 ∧
      sentMsgs (mcpOnRequest [("x", fun _ => Except.error (JVal.jstr "boom"))]
          { method := some (.jstr "x") }).1 =
        [{ jsonrpc := "2.0", id := none,
           error := some { code := -32603, message := "Internal error" } }]) :=
  c3_idless_request_replies _ _ (.jstr "x") (fun _ => Except.error (JVal.jstr "boom"))
    rfl rfl rfl

/-- C4: feeding any chunk partition through ingest one chunk at a time
produces the same line events — in particular the same classified
messages in the same order — and the same final buffer as feeding the
whole concatenation as a single chunk, for every parse function. -/
theorem c4_chunking_independent (parse : List Char → Option Msg)
    (chunks : List (List Char)) :
    ingestChunks parse chunks = ingestChunks parse [chunks.flatten] := by
  unfold ingestChunks
  rw [ingest_fold parse chunks [] [] (by simp),
      ingest_fold parse [chunks.flatten] [] [] (by simp)]
  simp

/-- C5: a classified reply (truthy id, no truthy method) consults the
pending registry exactly once: a present entry has its resolver called
with the message and is deleted; an absent id is dropped silently with
no event and no state change; and under the Map's key uniqueness the
deletion leaves no entry for that id, so the entry can never be removed
twice — a duplicate reply falls into the silent-drop case. -/
theorem c5_pending_reply_registry (handlers : List (String × Handler))
    (pending : List (JPrim × Nat)) (msg : Msg) (i : JPrim)
    (hm : optTruthy msg.method = false) (hid : msg.id = some i)
    (ht : truthyPrim i = true) :
    (∀ r, pfind pending i = some r →
        handleMessage handlers pending msg = ([.resolved r msg], pdelete pending i)) ∧
    (pfind pending i = none → handleMessage handlers pending msg = ([], pending)) ∧
    ((pending.map Prod.fst).Nodup → pfind (pdelete pending i) i = none) := by
  have hti : optTruthy (some i) = true := ht
  refine ⟨?_, ?_, ?_⟩
  · intro r hr
    simp [handleMessage, hm, hid, hti, hr]
  · intro hr
    simp [handleMessage, hm, hid, hti, hr]
  · intro hnd
    exact pfind_pdelete_of_nodup pending i hnd

/-- C5 witness: a reply with id 1 against the registry holding the one
entry (1, resolver 0). -/
theorem c5_witness :
    (∀ r, pfind [(JPrim.jnum 1, 0)] (.jnum 1) = some r →
        handleMessage [] [(JPrim.jnum 1, 0)] { id := some (.jnum 1) } =
          ([.resolved r { id := some (.jnum 1) }], pdelete [(JPrim.jnum 1, 0)] (.jnum 1))) ∧
    (pfind [(JPrim.jnum 1, 0)] (.jnum 1) = none →
        handleMessage [] [(JPrim.jnum 1, 0)] { id := some (.jnum 1) } =
          ([], [(JPrim.jnum 1, 0)])) ∧
    (([(JPrim.jnum 1, 0)].map (Prod.fst (α := JPrim) (β := Nat))).Nodup →
        pfind (pdelete [(JPrim.jnum 1, 0)] (.jnum 1)) (.jnum 1) = none) :=
  c5_pending_reply_registry [] [(JPrim.jnum 1, 0)] { id := some (.jnum 1) } (.jnum 1)
    rfl rfl rfl

/-- C6: an initialize request with any id and any params is answered by
exactly one reply with that id whose result carries the protocol
version, the server identity, the configured capability set and the
empty resourceTemplates list (no templates are configured); the
registry is returned unchanged. -/
theorem c6_initialize_reply (a b c d e f : Handler) (i : JPrim) (p : Option JVal) :
    mcpOnRequest (createServerHandlers a b c d e f)
        { id := some i, method := some (.jstr "initialize"), params := p } =
      ([.invoked "initialize",
        .sent { jsonrpc := "2.0", id := some i, result := some initializeResult }],
       createServerHandlers a b c d e f) ∧
    jget initializeResult "protocolVersion" = some (.jstr "2024-11-05") ∧
    jget initializeResult "serverInfo" =
      some (.jobj [("name", .jstr serverName), ("version", .jstr serverVersion)]) ∧
    jget initializeResult "capabilities" = some serverCapabilities ∧
    jget initializeResult "resourceTemplates" = some (.jarr []) := by
  exact ⟨rfl, rfl, rfl, rfl, rfl⟩

/-- C7: a complete line that is non-empty after trimming and fails to
parse yields exactly one log event (the bad line itself) and no message
event — so nothing is dispatched and no reply is possible — and the
rest of the buffer is processed exactly as it would be on its own: the
stream continues. -/
theorem c7_bad_line (parse : List Char → Option Msg) (line rest : List Char)
    (hnl : '\n' ∉ line) (htr : jsTrim line ≠ []) (hp : parse (jsTrim line) = none) :
    drain parse (line ++ '\n' :: rest) =
      (.badLine (jsTrim line) :: (drain parse rest).1, (drain parse rest).2) := by
  have hpl : processLine parse line = [.badLine (jsTrim line)] := by
    simp [processLine, htr, hp]
  rw [drain_step parse rest hnl, hpl]
  rfl

/-- C7 witness: the unparseable line "x" followed by a newline. -/
theorem c7_witness :
    drain noParse (['x'] ++ '\n' :: []) =
      (.badLine (jsTrim ['x']) :: (drain noParse []).1, (drain noParse []).2) :=
  c7_bad_line noParse ['x'] [] (by decide) (by decide) rfl

/-- C8: a complete line that trims to nothing produces no line event at
all — no message, no log — and the rest of the buffer is processed
exactly as it would be on its own. -/
theorem c8_blank_line (parse : List Char → Option Msg) (line rest : List Char)
    (hnl : '\n' ∉ line) (htr : jsTrim line = []) :
    drain parse (line ++ '\n' :: rest) = drain parse rest := by
  have hpl : processLine parse line = [] := by
    simp [processLine, htr]
  rw [drain_step parse rest hnl, hpl]
  rfl

/-- C8 witness: a line of one space followed by a newline. -/
theorem c8_witness :
    drain noParse ([' '] ++ '\n' :: []) = drain noParse [] :=
  c8_blank_line noParse [' '] [] (by decide) (by decide)

/-- C9: every message _onRequest hands to transport.send carries either
a result or an error descriptor, never both and never neither. -/
theorem c9_result_xor_error (handlers : List (String × Handler)) (msg : Msg) :
    ∀ m ∈ sentMsgs (mcpOnRequest handlers msg).1,
      (m.result.isSome = true ∧ m.error = none) ∨
      (m.result = none ∧ m.error.isSome = true) := by
  intro out hout
  cases hb : msg.method.bind (fun x => lookupHandler handlers x) with
  | none =>
      simp [mcpOnRequest, hb, sentMsgs] at hout
      subst hout
      exact Or.inr ⟨rfl, rfl⟩
  | some h =>
      cases hr : h (paramsOrEmpty msg.params) with
      | ok r =>
          simp [mcpOnRequest, hb, hr, sentMsgs] at hout
          subst hout
          exact Or.inl ⟨rfl, rfl⟩
      | error e =>
          simp [mcpOnRequest, hb, hr, sentMsgs] at hout
          subst hout
          exact Or.inr ⟨rfl, rfl⟩

/-- C9 witness: the method-not-found reply for method "q" on the empty
registry carries an error and no result. -/
theorem c9_witness :
    (({ jsonrpc := "2.0", id := some (.jnum 1),
        error := some { code := -32601, message := "Method not found: q" } } :
          OutMsg).result.isSome = true ∧
     ({ jsonrpc := "2.0", id := some (.jnum 1),
        error := some { code := -32601, message := "Method not found: q" } } :
          OutMsg).error = none) ∨
    (({ jsonrpc := "2.0", id := some (.jnum 1),
        error := some { code := -32601, message := "Method not found: q" } } :
          OutMsg).result = none ∧
     ({ jsonrpc := "2.0", id := some (.jnum 1),
        error := some { code := -32601, message := "Method not found: q" } } :
          OutMsg).error.isSome = true) :=
  c9_result_xor_error [] { id := some (.jnum 1), method := some (.jstr "q") }
    { jsonrpc := "2.0", id := some (.jnum 1),
      error := some { code := -32601, message := "Method not found: q" } }
    (List.mem_singleton.mpr rfl)

/-- C10: after ingesting any chunk sequence from a fresh transport, the
buffer is exactly the suffix of all received bytes that follows the
last newline: it contains no newline (no complete line is left
unprocessed) and the received bytes are the consumed prefix followed by
it (no unconsumed input is lost). -/
theorem c10_buffer_invariant (parse : List Char → Option Msg)
    (chunks : List (List Char)) :
    (ingestChunks parse chunks).2 = afterLastNl chunks.flatten ∧
    '\n' ∉ (ingestChunks parse chunks).2 ∧
    ∃ consumed, chunks.flatten = consumed ++ (ingestChunks parse chunks).2 := by
  have h1 : (ingestChunks parse chunks).2 = afterLastNl chunks.flatten := by
    unfold ingestChunks
    rw [ingest_fold parse chunks [] [] (by simp)]
    simp [drain_snd]
  refine ⟨h1, ?_, ?_⟩
  · rw [h1]
    exact afterLastNl_no_nl _
  · refine ⟨(chunks.flatten.reverse.dropWhile (fun c => c != '\n')).reverse, ?_⟩
    rw [h1]
    unfold afterLastNl
    rw [← List.reverse_append, List.takeWhile_append_dropWhile]
    exact (List.reverse_reverse _).symm

end MysqlMcp
